import Mathlib

/-!
Verification of the ofxCsv table / CSV row parsing library.

The repository ships only the class header `src/ofxCsv.h` (declarations and
doc comments); the function bodies live in a `.cpp` file that is not part of
the sources given. Following the specification document, the core row
splitter and joiner are modelled here as pure functions over `List Char`
(one character per byte of the row text), and the surrounding table is a
record mirroring the protected members of class `ofxCsv` (`data`,
`filePath`, `fieldSeparator`, `commentPrefix`, `quoteFields`). File input
is modelled as an optional list of lines (`none` = I/O failure).
-/

namespace OfxCsv

/-- Modelled from the spec: state of the two-state row-splitting automaton
of section 4.1 (spec section 9 asks for an explicit automaton with states
`unquoted` and `quoted`; `fieldStart` refines `unquoted` to remember that no
character of the current field has been consumed yet, because only a quote
that begins a field opens quoted mode). -/
inductive SplitMode
  | fieldStart
  | unquoted
  | quoted
  deriving DecidableEq

/-- Modelled from the spec: the body of `ofxCsv::fromRowString` is not in
the repository sources (only its declaration). Scans the row text left to
right per spec section 4.1: outside quoted mode a match of the separator
string ends the field; a quote beginning a field opens quoted mode; inside
quoted mode a doubled quote emits one literal quote, a single quote closes
the field, and everything else (separators included) is copied verbatim;
end of row always terminates the current field. -/
def splitRowAux (sep : List Char) (mode : SplitMode) (cur : List Char)
    (input : List Char) : List (List Char) :=
  match input with
  | [] => [cur]
  | c :: rest =>
    if mode = SplitMode.quoted then
      if c = '"' then
        if rest.head? = some '"' then
          splitRowAux sep SplitMode.quoted (cur ++ ['"']) rest.tail
        else
          splitRowAux sep SplitMode.unquoted cur rest
      else
        splitRowAux sep SplitMode.quoted (cur ++ [c]) rest
    else
      if h : sep ≠ [] ∧ sep.isPrefixOf (c :: rest) then
        cur :: splitRowAux sep SplitMode.fieldStart [] ((c :: rest).drop sep.length)
      else if mode = SplitMode.fieldStart ∧ c = '"' then
        splitRowAux sep SplitMode.quoted cur rest
      else
        splitRowAux sep SplitMode.unquoted (cur ++ [c]) rest
termination_by input.length
decreasing_by
  · simp only [List.length_tail, List.length_cons]
    omega
  · simp only [List.length_cons]
    omega
  · simp only [List.length_cons]
    omega
  · have hl : 0 < sep.length := List.length_pos.mpr h.1
    simp only [List.length_drop, List.length_cons]
    omega
  · simp only [List.length_cons]
    omega
  · simp only [List.length_cons]
    omega

/-- Split a row string into fields (`ofxCsv::fromRowString`; the spec calls
it `splitRow`). -/
def fromRowString (row sep : List Char) : List (List Char) :=
  splitRowAux sep SplitMode.fieldStart [] row

/-- Modelled from the spec: fuel-indexed clone of `splitRowAux` that is
structurally recursive on the fuel, so that concrete rows can be evaluated
by kernel reduction; `splitRowExec_eq` proves it equal to `splitRowAux`
whenever the fuel covers the input length. -/
def splitRowExec (sep : List Char) (fuel : Nat) (mode : SplitMode)
    (cur : List Char) (input : List Char) : List (List Char) :=
  match fuel, input with
  | _, [] => [cur]
  | 0, input => [cur ++ input]
  | fuel + 1, c :: rest =>
    if mode = SplitMode.quoted then
      if c = '"' then
        if rest.head? = some '"' then
          splitRowExec sep fuel SplitMode.quoted (cur ++ ['"']) rest.tail
        else
          splitRowExec sep fuel SplitMode.unquoted cur rest
      else
        splitRowExec sep fuel SplitMode.quoted (cur ++ [c]) rest
    else
      if sep ≠ [] ∧ sep.isPrefixOf (c :: rest) then
        cur :: splitRowExec sep fuel SplitMode.fieldStart [] ((c :: rest).drop sep.length)
      else if mode = SplitMode.fieldStart ∧ c = '"' then
        splitRowExec sep fuel SplitMode.quoted cur rest
      else
        splitRowExec sep fuel SplitMode.unquoted (cur ++ [c]) rest

/-- Modelled from the spec: doubling of literal quotes inside a field,
used by the joiner when quoting is requested (spec section 4.2). -/
def escapeQuotes : List Char → List Char
  | [] => []
  | c :: rest => if c = '"' then '"' :: '"' :: escapeQuotes rest else c :: escapeQuotes rest

/-- Modelled from the spec: wrap a field in double quotes after doubling
any literal quote inside it. -/
def quoteField (f : List Char) : List Char :=
  '"' :: (escapeQuotes f ++ ['"'])

/-- Modelled from the spec: the body of `ofxCsv::toRowString` is not in the
repository sources (only its declaration). Joins fields in input order with
the separator as delimiter, no trailing separator; with the quote flag set,
every field is wrapped in quotes with inner quotes doubled, otherwise each
field is emitted verbatim (spec section 4.2). -/
def toRowString (cols : List (List Char)) (sep : List Char) (quote : Bool) : List Char :=
  match cols with
  | [] => []
  | [f] => if quote then quoteField f else f
  | f :: rest => (if quote then quoteField f else f) ++ sep ++ toRowString rest sep quote

/-- Table state of class `ofxCsv`: the protected members listed in the
header (`data`, `filePath`, `fieldSeparator`, `commentPrefix` — named
`commentStr` here — and `quoteFields`), with strings as `List Char`. -/
structure ofxCsv where
  data : List (List (List Char))
  filePath : List Char
  fieldSeparator : List Char
  commentStr : List Char
  quoteFields : Bool
  deriving DecidableEq

/-- Modelled from the spec: the constructor defaults of section 3 —
separator comma, comment marker hash, quoting off, no rows. -/
def ofxCsvInit : ofxCsv :=
  { data := []
    filePath := []
    fieldSeparator := [',']
    commentStr := ['#']
    quoteFields := false }

/-- Modelled from the spec: load-time comment filtering (spec section 4.3)
— a line is dropped exactly when its first characters literally match the
comment marker string. -/
def keptLines (comment : List Char) (lines : List (List Char)) : List (List Char) :=
  lines.filter (fun l => ! comment.isPrefixOf l)

/-- Modelled from the spec: the body of `ofxCsv::load` is not in the
repository sources (only its declaration). The file system is modelled as
an optional list of lines; `none` is an I/O failure, reported as `false`
with the table untouched (spec section 5). On success the previous rows are
replaced by the comment-filtered, per-line split of the file, and the
configuration is set from the arguments (header doc of `load`). -/
def load (t : ofxCsv) (path sep comment : List Char)
    (fileLines : Option (List (List Char))) : Bool × ofxCsv :=
  match fileLines with
  | none => (false, t)
  | some lines =>
    (true,
      { t with
        data := (keptLines comment lines).map (fun l => fromRowString l sep)
        filePath := path
        fieldSeparator := sep
        commentStr := comment })

/-- Modelled from the spec: the body of `ofxCsv::getRow` is not in the
repository sources. Per its header doc it returns the row, or an empty row
if the index is out of bounds (indices are C++ `int`, modelled as `Int`;
negative indices are out of bounds). -/
def getRow (t : ofxCsv) (row : Int) : List (List Char) :=
  if 0 ≤ row then (t.data.get? row.toNat).getD [] else []

/-- Modelled from the spec: in-bounds cell lookup shared by the typed
getters; `none` when the row or the column index is out of range. -/
def getCell (t : ofxCsv) (row col : Int) : Option (List Char) :=
  if 0 ≤ col then (getRow t row).get? col.toNat else none

/-- Modelled from the spec: `ofxCsv::getString` returns the field text, or
the empty string when the index is not found (header doc). -/
def getString (t : ofxCsv) (row col : Int) : List Char :=
  (getCell t row col).getD []

/-- Modelled from the spec: `ofxCsv::getInt` converts the field text with
the host conversion (taken as a parameter here) and returns 0 when the
index is not found (header doc). -/
def getInt (conv : List Char → Int) (t : ofxCsv) (row col : Int) : Int :=
  ((getCell t row col).map conv).getD 0

/-- Modelled from the spec: `ofxCsv::getFloat` with the numeric conversion
taken as a parameter (result modelled as a rational); returns 0.0 when the
index is not found (header doc). -/
def getFloat (conv : List Char → Rat) (t : ofxCsv) (row col : Int) : Rat :=
  ((getCell t row col).map conv).getD 0

/-- Modelled from the spec: `ofxCsv::getBool` with the conversion taken as
a parameter; returns false when the index is not found (header doc). -/
def getBool (conv : List Char → Bool) (t : ofxCsv) (row col : Int) : Bool :=
  ((getCell t row col).map conv).getD false

/-- Modelled from the spec: `ofxCsv::expandRow` fills any missing fields of
one row with empty strings up to the desired number of columns (header
doc); it never removes existing fields. -/
def expandRow (row : List (List Char)) (cols : Nat) : List (List Char) :=
  row ++ List.replicate (cols - row.length) []

/-- Modelled from the spec: `ofxCsv::expand` grows the table to the desired
number of rows and columns, filling any missing fields with empty strings
(header doc; spec section 8 — expanding never shrinks existing rows or
columns). -/
def expand (t : ofxCsv) (rows cols : Nat) : ofxCsv :=
  { t with
    data := (t.data ++ List.replicate (rows - t.data.length) []).map
      (fun r => expandRow r cols) }

/-- Modelled from the spec: the two-argument overload of
`ofxCsv::toRowString`; its header doc says "Quotes the fields." -/
def toRowString2 (cols : List (List Char)) (sep : List Char) : List Char :=
  toRowString cols sep true

/-- Modelled from the spec: the one-argument overload of
`ofxCsv::toRowString`; its header doc says it uses the current field
separator and does not quote the fields. -/
def toRowString1 (t : ofxCsv) (cols : List (List Char)) : List Char :=
  toRowString cols t.fieldSeparator false

/-- Concrete table used by the expansion witness. -/
def csvT0 : ofxCsv :=
  { data := [[['x'], ['y']]]
    filePath := []
    fieldSeparator := [',']
    commentStr := ['#']
    quoteFields := false }

end OfxCsv

namespace OfxCsv

/-- Evaluation helper: a list is a Boolean prefix of itself followed by
anything. -/
theorem isPrefixOf_append_self : ∀ (p r : List Char), p.isPrefixOf (p ++ r) = true := by
  intro p
  induction p with
  | nil => intro r; simp [List.isPrefixOf]
  | cons a p ih => intro r; simp [List.isPrefixOf, ih]

/-- Characterisation of the Boolean prefix test: it succeeds exactly when
the candidate followed by some remainder is the whole list. -/
theorem isPrefixOf_eq_true_iff :
    ∀ (p l : List Char), p.isPrefixOf l = true ↔ ∃ u, p ++ u = l := by
  intro p
  induction p with
  | nil => intro l; simp [List.isPrefixOf]
  | cons a p ih =>
    intro l
    cases l with
    | nil => simp [List.isPrefixOf]
    | cons b l =>
      simp only [List.isPrefixOf, Bool.and_eq_true, beq_iff_eq, ih, List.cons_append,
        List.cons.injEq]
      constructor
      · rintro ⟨h1, u, h2⟩
        exact ⟨u, h1, h2⟩
      · rintro ⟨u, h1, h2⟩
        exact ⟨h1, u, h2⟩

/-- Splitting an empty row yields one (possibly empty) field. -/
theorem splitRowAux_nil (sep cur : List Char) (mode : SplitMode) :
    splitRowAux sep mode cur [] = [cur] := by
  simp [splitRowAux]

/-- Inside quoted mode a doubled quote is consumed whole, emits one literal
quote, and the automaton stays in quoted mode. -/
theorem splitRowAux_quoted_pair (sep cur rest : List Char) :
    splitRowAux sep SplitMode.quoted cur ('"' :: '"' :: rest) =
      splitRowAux sep SplitMode.quoted (cur ++ ['"']) rest := by
  simp [splitRowAux]

/-- Inside quoted mode a quote not followed by another quote closes the
field without being emitted. -/
theorem splitRowAux_quoted_close (sep cur rest : List Char) (h : rest.head? ≠ some '"') :
    splitRowAux sep SplitMode.quoted cur ('"' :: rest) =
      splitRowAux sep SplitMode.unquoted cur rest := by
  simp [splitRowAux, h]

/-- Inside quoted mode any character other than a quote is copied verbatim,
separators included. -/
theorem splitRowAux_quoted_char (sep cur rest : List Char) (c : Char) (h : c ≠ '"') :
    splitRowAux sep SplitMode.quoted cur (c :: rest) =
      splitRowAux sep SplitMode.quoted (cur ++ [c]) rest := by
  simp [splitRowAux, h]

/-- A quote at the start of a field opens quoted mode (when the separator,
being quote-free, cannot match there). -/
theorem splitRowAux_open_quote (sep : List Char) (hne : sep ≠ []) (hq : '"' ∉ sep)
    (cur body : List Char) :
    splitRowAux sep SplitMode.fieldStart cur ('"' :: body) =
      splitRowAux sep SplitMode.quoted cur body := by
  obtain ⟨s, tl, rfl⟩ : ∃ s tl, sep = s :: tl := by
    cases sep with
    | nil => exact absurd rfl hne
    | cons s tl => exact ⟨s, tl, rfl⟩
  have hs : s ≠ '"' := by
    intro h
    exact hq (h ▸ List.mem_cons_self s tl)
  have hpre : (s :: tl).isPrefixOf ('"' :: body) = false := by
    simp [List.isPrefixOf, hs]
  simp [splitRowAux, hpre]

/-- Outside quoted mode, text beginning with the separator ends the current
field and restarts field scanning after the separator. -/
theorem splitRowAux_consume_sep (sep : List Char) (hne : sep ≠ []) (cur rest : List Char) :
    splitRowAux sep SplitMode.unquoted cur (sep ++ rest) =
      cur :: splitRowAux sep SplitMode.fieldStart [] rest := by
  obtain ⟨s, tl, rfl⟩ : ∃ s tl, sep = s :: tl := by
    cases sep with
    | nil => exact absurd rfl hne
    | cons s tl => exact ⟨s, tl, rfl⟩
  have hpre : (s :: tl).isPrefixOf (s :: (tl ++ rest)) = true :=
    isPrefixOf_append_self (s :: tl) rest
  simp [splitRowAux, hpre, List.drop_left]

/-- Scanning the escaped body of a quoted field restores the original field
text and leaves the closing quote consumed. -/
theorem splitRowAux_scan_escaped (sep : List Char) :
    ∀ (f cur rest : List Char), rest.head? ≠ some '"' →
      splitRowAux sep SplitMode.quoted cur (escapeQuotes f ++ '"' :: rest) =
        splitRowAux sep SplitMode.unquoted (cur ++ f) rest := by
  intro f
  induction f with
  | nil =>
    intro cur rest h
    simpa using splitRowAux_quoted_close sep cur rest h
  | cons c f ih =>
    intro cur rest h
    by_cases hc : c = '"'
    · subst hc
      have he : escapeQuotes ('"' :: f) = '"' :: '"' :: escapeQuotes f := by
        simp [escapeQuotes]
      rw [he, List.cons_append, List.cons_append, splitRowAux_quoted_pair,
        ih (cur ++ ['"']) rest h]
      simp
    · have he : escapeQuotes (c :: f) = c :: escapeQuotes f := by
        simp [escapeQuotes, hc]
      rw [he, List.cons_append, splitRowAux_quoted_char sep cur _ c hc,
        ih (cur ++ [c]) rest h]
      simp

end OfxCsv

namespace OfxCsv

theorem splitRowExec_eq (sep : List Char) :
    ∀ (fuel : Nat) (mode : SplitMode) (cur input : List Char), input.length ≤ fuel →
      splitRowExec sep fuel mode cur input = splitRowAux sep mode cur input := by
  intro fuel
  induction fuel with
  | zero =>
    intro mode cur input h
    have hnil : input = [] := List.eq_nil_of_length_eq_zero (Nat.le_zero.mp h)
    subst hnil
    simp [splitRowExec, splitRowAux_nil]
  | succ n ih =>
    intro mode cur input h
    cases input with
    | nil => simp [splitRowExec, splitRowAux_nil]
    | cons c rest =>
      have hr : rest.length ≤ n := by
        simpa using h
      simp only [splitRowExec, splitRowAux]
      split_ifs with h1 h2 h3 h4 h5
      · rw [ih]
        simp only [List.length_tail]
        omega
      · rw [ih]
        exact hr
      · rw [ih]
        exact hr
      · have hl : 0 < sep.length := List.length_pos.mpr h4.1
        rw [ih]
        simp only [List.length_drop, List.length_cons]
        omega
      · rw [ih]
        exact hr
      · rw [ih]
        exact hr

theorem fromRowString_eval (row sep : List Char) :
    fromRowString row sep = splitRowExec sep row.length SplitMode.fieldStart [] row :=
  (splitRowExec_eq sep row.length SplitMode.fieldStart [] row le_rfl).symm

theorem splitRowAux_ne_nil_fuel (sep : List Char) :
    ∀ (n : Nat) (mode : SplitMode) (cur input : List Char), input.length ≤ n →
      splitRowAux sep mode cur input ≠ [] := by
  intro n
  induction n with
  | zero =>
    intro mode cur input h
    have hnil : input = [] := List.eq_nil_of_length_eq_zero (Nat.le_zero.mp h)
    subst hnil
    simp [splitRowAux_nil]
  | succ n ih =>
    intro mode cur input h
    cases input with
    | nil => simp [splitRowAux_nil]
    | cons c rest =>
      have hr : rest.length ≤ n := by
        simpa using h
      simp only [splitRowAux]
      split_ifs with h1 h2 h3 h4 h5
      · apply ih
        simp only [List.length_tail]
        omega
      · exact ih _ _ _ hr
      · exact ih _ _ _ hr
      · exact List.cons_ne_nil _ _
      · exact ih _ _ _ hr
      · exact ih _ _ _ hr

end OfxCsv

namespace OfxCsv

theorem roundTrip_aux (sep : List Char) (hne : sep ≠ []) (hq : '"' ∉ sep) :
    ∀ (F : List (List Char)) (f : List Char),
      splitRowAux sep SplitMode.fieldStart [] (toRowString (f :: F) sep true) = f :: F := by
  intro F
  induction F with
  | nil =>
    intro f
    have h1 : toRowString [f] sep true = '"' :: (escapeQuotes f ++ '"' :: []) := by
      simp [toRowString, quoteField]
    rw [h1, splitRowAux_open_quote sep hne hq,
      splitRowAux_scan_escaped sep f [] [] (by simp), splitRowAux_nil]
    simp
  | cons f2 F ih =>
    intro f
    obtain ⟨s, tl, hsep⟩ : ∃ s tl, sep = s :: tl := by
      cases sep with
      | nil => exact absurd rfl hne
      | cons s tl => exact ⟨s, tl, rfl⟩
    have hs : s ≠ '"' := by
      intro hcon
      exact hq (hcon ▸ (hsep ▸ List.mem_cons_self s tl))
    have hh : (sep ++ toRowString (f2 :: F) sep true).head? ≠ some '"' := by
      rw [hsep]
      simp [hs]
    have h1 : toRowString (f :: f2 :: F) sep true =
        '"' :: (escapeQuotes f ++ '"' :: (sep ++ toRowString (f2 :: F) sep true)) := by
      simp [toRowString, quoteField]
    rw [h1, splitRowAux_open_quote sep hne hq,
      splitRowAux_scan_escaped sep f [] _ hh,
      splitRowAux_consume_sep sep hne, ih f2]
    simp

end OfxCsv

namespace OfxCsv

theorem splitRowAux_no_close (sep : List Char) :
    ∀ (rest cur : List Char), '"' ∉ rest →
      splitRowAux sep SplitMode.quoted cur rest = [cur ++ rest] := by
  intro rest
  induction rest with
  | nil => intro cur h; simp [splitRowAux_nil]
  | cons c rest ih =>
    intro cur h
    rw [List.mem_cons, not_or] at h
    obtain ⟨hc, hrest⟩ := h
    rw [splitRowAux_quoted_char sep cur rest c (fun he => hc he.symm), ih (cur ++ [c]) hrest]
    simp

theorem intercalate_cons_cons (sep f f2 : List Char) (F : List (List Char)) :
    List.intercalate sep (f :: f2 :: F) = f ++ sep ++ List.intercalate sep (f2 :: F) := by
  simp [List.intercalate, List.intersperse]

theorem getRow_oob (t : ofxCsv) (row : Int)
    (h : ¬ (0 ≤ row ∧ row.toNat < t.data.length)) : getRow t row = [] := by
  unfold getRow
  by_cases hr : 0 ≤ row
  · rw [if_pos hr]
    have hlen : t.data.length ≤ row.toNat := by
      by_contra hlt
      exact h ⟨hr, Nat.lt_of_not_le hlt⟩
    rw [List.get?_eq_none.mpr hlen]
    rfl
  · rw [if_neg hr]

theorem getCell_eq_none (t : ofxCsv) (row col : Int)
    (h : ¬ (0 ≤ row ∧ row.toNat < t.data.length ∧ 0 ≤ col ∧
      col.toNat < (getRow t row).length)) :
    getCell t row col = none := by
  unfold getCell
  by_cases hc : 0 ≤ col
  · rw [if_pos hc]
    apply List.get?_eq_none.mpr
    by_contra hlt
    have hd : col.toNat < (getRow t row).length := Nat.lt_of_not_le hlt
    have hrow : 0 ≤ row ∧ row.toNat < t.data.length := by
      by_contra hr
      rw [getRow_oob t row hr] at hd
      simp at hd
    exact h ⟨hrow.1, hrow.2, hc, hd⟩
  · rw [if_neg hc]

end OfxCsv

namespace OfxCsv

/-- C1 counterexample: the quoted round-trip law fails as stated. For the
empty field sequence the joined text is the empty row, which re-splits to
one empty field rather than to no field; and for a separator containing a
double quote (here the two-character separator quote-comma) the closing
quote of a field merges with the first separator character into a doubled
quote, so re-parsing does not reproduce the fields. -/
theorem c1_quoted_round_trip_counterexample :
    fromRowString (toRowString [] [','] true) [','] ≠ [] ∧
      fromRowString (toRowString [['a'], ['b']] ['"', ','] true) ['"', ','] ≠
        [['a'], ['b']] := by
  constructor
  · rw [fromRowString_eval]
    decide
  · rw [fromRowString_eval]
    decide

/-- C1 (amended): quoted round-trip law. For every non-empty field
sequence F — fields may contain separators, quotes, or anything else — and
every non-empty separator that does not contain the double-quote character,
splitting the quote-all join reproduces F exactly. -/
theorem c1_quoted_round_trip (F : List (List Char)) (sep : List Char)
    (hF : F ≠ []) (hsep : sep ≠ []) (hq : '"' ∉ sep) :
    fromRowString (toRowString F sep true) sep = F := by
  cases F with
  | nil => exact absurd rfl hF
  | cons f F => exact roundTrip_aux sep hsep hq F f

/-- C1 witness: the amended round-trip law at a concrete input whose
fields contain a quote, a separator, and an empty field. -/
theorem c1_quoted_round_trip_witness :
    ([['a', '"', 'x'], [',', 'b'], []] : List (List Char)) ≠ [] ∧
      ([','] : List Char) ≠ [] ∧ '"' ∉ ([','] : List Char) ∧
      fromRowString (toRowString [['a', '"', 'x'], [',', 'b'], []] [','] true) [','] =
        [['a', '"', 'x'], [',', 'b'], []] :=
  ⟨by decide, by decide, by decide,
    c1_quoted_round_trip [['a', '"', 'x'], [',', 'b'], []] [',']
      (by decide) (by decide) (by decide)⟩

/-- C2: load-failure atomicity. Whenever a load call reports failure, the
row sequence of the table after the call is the row sequence before the
call. -/
theorem c2_load_failure_atomicity (t : ofxCsv) (path sep comment : List Char)
    (fileLines : Option (List (List Char)))
    (h : (load t path sep comment fileLines).1 = false) :
    (load t path sep comment fileLines).2.data = t.data := by
  cases fileLines with
  | none => rfl
  | some lines => simp [load] at h

/-- C2 witness: a failing load (missing file) on a concrete non-empty
table leaves its rows unchanged. -/
theorem c2_load_failure_atomicity_witness :
    (load csvT0 ['p'] [','] ['#'] none).1 = false ∧
      (load csvT0 ['p'] [','] ['#'] none).2.data = csvT0.data :=
  ⟨rfl, c2_load_failure_atomicity csvT0 ['p'] [','] ['#'] none rfl⟩

/-- C3: doubled-quote unescape. In quoted mode a doubled quote is
consumed as a single literal quote in the output field with quoted mode
kept; in particular the concrete row of the claim — the letter a, a comma,
then the quoted field holding hi wrapped in escaped quotes, a comma and
the letter b — splits into three fields, the middle one being hi wrapped
in single literal quotes. -/
theorem c3_doubled_quote_unescape :
    (∀ (sep cur rest : List Char),
        splitRowAux sep SplitMode.quoted cur ('"' :: '"' :: rest) =
          splitRowAux sep SplitMode.quoted (cur ++ ['"']) rest) ∧
      fromRowString ['a', ',', '"', '"', '"', 'h', 'i', '"', '"', '"', ',', 'b'] [','] =
        [['a'], ['"', 'h', 'i', '"'], ['b']] := by
  refine ⟨fun sep cur rest => splitRowAux_quoted_pair sep cur rest, ?_⟩
  rw [fromRowString_eval]
  decide

/-- C4 counterexample: for the row text consisting of a quote, the letter
a, a doubled quote and the letter b, the opening quote is never matched by
a closing quote, yet the remaining characters are not all included
literally in the final field: the doubled quote is unescaped to a single
quote, so the field has three characters, not four. -/
theorem c4_unterminated_quote_counterexample :
    fromRowString ['"', 'a', '"', '"', 'b'] [','] = [['a', '"', 'b']] ∧
      [['a', '"', 'b']] ≠ [['a', '"', '"', 'b']] := by
  constructor
  · rw [fromRowString_eval]
    decide
  · decide

/-- C4 (amended): unterminated-quote degradation. Once in quoted mode,
if the remaining row text contains no double-quote character at all (so
the opening quote is certainly unmatched), the parse still returns a
result and all remaining characters — separators included — are included
literally in the content of that final quoted field; in particular a row
that opens a quote never closed by any quote character splits to exactly
one field holding the rest of the row verbatim. -/
theorem c4_unterminated_quote (sep cur rest : List Char) (h : '"' ∉ rest) :
    splitRowAux sep SplitMode.quoted cur rest = [cur ++ rest] ∧
      (sep ≠ [] → '"' ∉ sep → fromRowString ('"' :: rest) sep = [rest]) := by
  refine ⟨splitRowAux_no_close sep rest cur h, fun hne hq => ?_⟩
  have h0 : fromRowString ('"' :: rest) sep =
      splitRowAux sep SplitMode.fieldStart [] ('"' :: rest) := rfl
  rw [h0, splitRowAux_open_quote sep hne hq, splitRowAux_no_close sep rest [] h]
  simp

/-- C4 witness: a quoted field left open before text containing a
separator swallows the rest of the row literally. -/
theorem c4_unterminated_quote_witness :
    ('"' ∉ (['b', 'c', ',', 'd'] : List Char)) ∧
      splitRowAux [','] SplitMode.quoted ['a'] ['b', 'c', ',', 'd'] =
        [['a', 'b', 'c', ',', 'd']] ∧
      fromRowString ['"', 'b', 'c', ',', 'd'] [','] = [['b', 'c', ',', 'd']] := by
  have h := c4_unterminated_quote [','] ['a'] ['b', 'c', ',', 'd'] (by decide)
  exact ⟨by decide, h.1, h.2 (by decide) (by decide)⟩

/-- C5: unquoted join is verbatim. Joining without quoting equals the
plain intercalation of the fields with the separator: fields in input
order, exactly one separator between consecutive fields, no trailing
separator, and no field altered in any way. -/
theorem c5_unquoted_join_verbatim (F : List (List Char)) (sep : List Char) :
    toRowString F sep false = List.intercalate sep F := by
  induction F with
  | nil => simp [toRowString, List.intercalate]
  | cons f F ih =>
    cases F with
    | nil => simp [toRowString, List.intercalate, List.intersperse]
    | cons f2 F2 =>
      have h1 : toRowString (f :: f2 :: F2) sep false =
          f ++ sep ++ toRowString (f2 :: F2) sep false := by
        simp [toRowString]
      rw [h1, ih, intercalate_cons_cons]

/-- C6: splitting any row text yields at least one field, and the empty
row yields exactly one empty field. -/
theorem c6_split_always_nonempty (row sep : List Char) :
    fromRowString row sep ≠ [] ∧ fromRowString [] sep = [[]] := by
  constructor
  · exact splitRowAux_ne_nil_fuel sep row.length SplitMode.fieldStart [] row le_rfl
  · exact splitRowAux_nil sep [] SplitMode.fieldStart

/-- C6 witness: the non-emptiness statement at a concrete row and
separator. -/
theorem c6_split_always_nonempty_witness :
    fromRowString ['a'] [','] ≠ [] ∧ fromRowString [] [','] = [[]] :=
  c6_split_always_nonempty ['a'] [',']

/-- C7: comment filtering on load. A line survives the load-time filter
exactly when it occurs in the input and the comment marker string is not
literally its first characters, and the loaded row sequence is precisely
the per-line split of the surviving lines; a line in which the marker
occurs only later is therefore kept. -/
theorem c7_comment_filtering (t : ofxCsv) (path sep comment : List Char)
    (lines : List (List Char)) (line : List Char) :
    (line ∈ keptLines comment lines ↔ line ∈ lines ∧ ¬ ∃ u, comment ++ u = line) ∧
      (load t path sep comment (some lines)).2.data =
        (keptLines comment lines).map (fun l => fromRowString l sep) := by
  constructor
  · simp only [keptLines, List.mem_filter, Bool.not_eq_true', and_congr_right_iff, not_exists]
    intro _
    rw [Bool.eq_false_iff, ne_eq, isPrefixOf_eq_true_iff]
    push_neg
    exact Iff.rfl
  · rfl

/-- C8: out-of-bounds read fallbacks. For a row index outside the table
getRow returns the empty row, and for any (row, col) outside the current
bounds the typed getters return their documented fallbacks: 0, 0.0, the
empty string, and false. The getters are pure functions of the table, so
no access modifies it. -/
theorem c8_out_of_bounds_defaults (t : ofxCsv) (row col : Int)
    (intConv : List Char → Int) (floatConv : List Char → Rat)
    (boolConv : List Char → Bool) :
    (¬ (0 ≤ row ∧ row.toNat < t.data.length) → getRow t row = []) ∧
      (¬ (0 ≤ row ∧ row.toNat < t.data.length ∧ 0 ≤ col ∧
          col.toNat < (getRow t row).length) →
        getInt intConv t row col = 0 ∧ getFloat floatConv t row col = 0 ∧
          getString t row col = [] ∧ getBool boolConv t row col = false) := by
  refine ⟨getRow_oob t row, fun h => ?_⟩
  have hc := getCell_eq_none t row col h
  simp [getInt, getFloat, getString, getBool, hc]

/-- C8 witness: the fallbacks at a concrete table with one row, a row
index past the end and a negative column index. -/
theorem c8_out_of_bounds_defaults_witness :
    getRow csvT0 5 = [] ∧ getInt (fun _ => 7) csvT0 5 (-1) = 0 ∧
      getFloat (fun _ => 7) csvT0 5 (-1) = 0 ∧ getString csvT0 5 (-1) = [] ∧
      getBool (fun _ => true) csvT0 5 (-1) = false := by
  have h := c8_out_of_bounds_defaults csvT0 5 (-1) (fun _ => 7) (fun _ => 7) (fun _ => true)
  have h1 := h.1 (by decide)
  have h2 := h.2 (by decide)
  exact ⟨h1, h2.1, h2.2.1, h2.2.2.1, h2.2.2.2⟩

/-- C9: expansion is non-destructive. Expanding never removes rows;
every pre-existing row keeps its pre-existing fields unchanged as a prefix
and gains only empty-string fields, and every newly created row consists
solely of empty-string fields. -/
theorem c9_expand_non_destructive (t : ofxCsv) (rows cols : Nat) :
    t.data.length ≤ (expand t rows cols).data.length ∧
      (∀ (i : Nat) (h : i < t.data.length) (h2 : i < (expand t rows cols).data.length),
        (expand t rows cols).data.get ⟨i, h2⟩ =
          t.data.get ⟨i, h⟩ ++ List.replicate (cols - (t.data.get ⟨i, h⟩).length) []) ∧
      (∀ (i : Nat) (h1 : t.data.length ≤ i) (h2 : i < (expand t rows cols).data.length),
        (expand t rows cols).data.get ⟨i, h2⟩ = List.replicate cols []) := by
  refine ⟨?_, ?_, ?_⟩
  · simp [expand]
  · intro i h h2
    simp only [expand, List.get_eq_getElem, List.getElem_map]
    rw [List.getElem_append_left h]
    simp [expandRow]
  · intro i h1 h2
    simp only [expand, List.get_eq_getElem, List.getElem_map]
    rw [List.getElem_append_right h1, List.getElem_replicate]
    simp [expandRow]

/-- C9 witness: expanding a concrete one-row table to two rows and three
columns keeps the old fields and fills the new cells with empty strings. -/
theorem c9_expand_non_destructive_witness :
    2 ≤ (expand csvT0 2 3).data.length ∧
      (expand csvT0 2 3).data.get ⟨0, by decide⟩ = [['x'], ['y'], []] ∧
      (expand csvT0 2 3).data.get ⟨1, by decide⟩ = [[], [], []] := by
  have h := c9_expand_non_destructive csvT0 2 3
  refine ⟨?_, ?_, ?_⟩
  · decide
  · exact h.2.1 0 (by decide) (by decide)
  · exact h.2.2 1 (by decide) (by decide)

/-- C10: overload asymmetry of the joiner. The two-argument overload of
toRowString quotes the fields — it agrees with the three-argument overload
at quote flag true — even though the constructor default of the save-time
quote flag is false and the one-argument overload does not quote, as the
concrete disagreement at a one-field row shows. -/
theorem c10_two_arg_join_quotes :
    (∀ (cols : List (List Char)) (sep : List Char),
        toRowString2 cols sep = toRowString cols sep true) ∧
      (∀ (t : ofxCsv) (cols : List (List Char)),
        toRowString1 t cols = toRowString cols t.fieldSeparator false) ∧
      ofxCsvInit.quoteFields = false ∧
      toRowString2 [['a']] [','] ≠ toRowString1 ofxCsvInit [['a']] := by
  refine ⟨fun _ _ => rfl, fun _ _ => rfl, rfl, by decide⟩

end OfxCsv
